import Mathlib

/-!
# Verification of the cmplog instrumentation subsystem (libafl_qemu/src/cmplog.rs)

A shallow embedding of the comparison-logging (cmplog) subsystem of the
LibAFL QEMU instrumentation layer, together with proofs of the specified
properties of its slot-identifier allocators (`gen_unique_cmp_ids`,
`gen_hashed_cmp_ids`), its call-site scanner (`gen_blocks_calls`) and its
call-argument runtime hook (`on_call`).

Machine integers are modelled as `Nat` (all the relevant arithmetic is
masking with `CMPLOG_MAP_W - 1`, which never overflows); the `HashMap` of
`QemuCmpsMapMetadata` is modelled as an insertion-ordered association list
(`List (Nat × Nat)`) with first-match lookup; a Rust panic is modelled as
the `Except.error` branch of the result.
-/

namespace Cmplog

/-- Modelled from the spec: `CMPLOG_MAP_W`, the width W of the externally
owned capture map, is re-exported from the external `libafl_targets` crate
and is not part of the shown sources.  The code masks slot ids with
`CMPLOG_MAP_W - 1`, so W is a power of two; we fix W = 2^16. -/
def CMPLOG_MAP_W : Nat := 65536

/-- Modelled from the spec: `hash_me` lives in the helper module of this
crate, which is not among the shown sources.  The spec requires only that
it is a pure, deterministic, stateless hash of a 64-bit address; we model
it as multiplication by an odd 64-bit constant, reduced modulo 2^64. -/
def hash_me (x : Nat) : Nat := (x * 0x9E3779B97F4A7C15) % (2 ^ 64)

/-- `QemuCmpsMapMetadata` (cmplog.rs lines 31-35): the per-fuzzing-state
site metadata, a map from code address to assigned slot id plus the ring
counter `current_id`. -/
structure QemuCmpsMapMetadata where
  map : List (Nat × Nat)
  current_id : Nat
  deriving Repr, DecidableEq

/-- `QemuCmpsMapMetadata::new` (cmplog.rs lines 39-44): empty map,
counter 0. -/
def QemuCmpsMapMetadata.new : QemuCmpsMapMetadata :=
  { map := [], current_id := 0 }

/-- First-match lookup in the association list modelling
`HashMap<u64, u64>::get`. -/
def mapGet (m : List (Nat × Nat)) (k : Nat) : Option Nat :=
  match m with
  | [] => none
  | p :: rest => if p.1 = k then some p.2 else mapGet rest k

/-- The metadata slot of the fuzzing state: `none` while no
`QemuCmpsMapMetadata` has been added to the state's metadata map yet. -/
abbrev MetaSlot := Option QemuCmpsMapMetadata

/-- The instrumentation-filter gate as consulted by the id-generation
callbacks: the filter of the matching helper when one is registered in the
hook tuple (`hooks.match_helper_mut`), or absent.  Returns `true` exactly
when the callback's early `return None` branch is taken. -/
def filterRejects (helperFilter : Option (Nat → Bool)) (pc : Nat) : Bool :=
  match helperFilter with
  | some f => ! f pc
  | none => false

/-- `gen_unique_cmp_ids` (cmplog.rs lines 144-174), the stable keyed
allocator.  Arguments: the map width `w` (`CMPLOG_MAP_W`), the optional
helper filter, the optional fuzzing state (its metadata slot), and the
comparison address `pc`.  `Except.error` models the
`state.expect(...)` panic; otherwise the result is the state's new
metadata slot paired with the optional slot id. -/
def gen_unique_cmp_ids (w : Nat) (helperFilter : Option (Nat → Bool))
    (state : Option MetaSlot) (pc : Nat) :
    Except String (Option MetaSlot × Option Nat) :=
  if filterRejects helperFilter pc then
    Except.ok (state, none)
  else
    match state with
    | none =>
      Except.error "The gen_unique_cmp_ids hook works only for in-process fuzzing"
    | some slot =>
      let meta := slot.getD QemuCmpsMapMetadata.new
      match mapGet meta.map pc with
      | some id => Except.ok (some (some meta), some id)
      | none =>
        let id := meta.current_id
        Except.ok
          (some (some { map := meta.map ++ [(pc, id)],
                        current_id := (id + 1) &&& (w - 1) }),
           some id)

/-- `gen_hashed_cmp_ids` (cmplog.rs lines 176-193), the stateless hashed
allocator: consults the child helper's filter, then returns
`hash_me(pc) & (CMPLOG_MAP_W - 1)` without touching the state. -/
def gen_hashed_cmp_ids (w : Nat) (helperFilter : Option (Nat → Bool))
    (state : Option MetaSlot) (pc : Nat) :
    Option MetaSlot × Option Nat :=
  if filterRejects helperFilter pc then
    (state, none)
  else
    (state, some (hash_me pc &&& (w - 1)))

/-- One allocation step on the metadata slot of a present fuzzing state:
the state produced by `gen_unique_cmp_ids` (which never panics when a
state is present). -/
def allocStep (w : Nat) (helperFilter : Option (Nat → Bool))
    (slot : MetaSlot) (pc : Nat) : MetaSlot :=
  match gen_unique_cmp_ids w helperFilter (some slot) pc with
  | Except.ok (some slot', _) => slot'
  | _ => slot

/-- The slot id produced by one allocation step. -/
def allocId (w : Nat) (helperFilter : Option (Nat → Bool))
    (slot : MetaSlot) (pc : Nat) : Option Nat :=
  match gen_unique_cmp_ids w helperFilter (some slot) pc with
  | Except.ok (_, id) => id
  | _ => none

/-- A sequence of stable allocations (one `gen_unique_cmp_ids` call per
address in the list, left to right) on a present fuzzing state. -/
def allocList (w : Nat) (helperFilter : Option (Nat → Bool))
    (slot : MetaSlot) (pcs : List Nat) : MetaSlot :=
  pcs.foldl (allocStep w helperFilter) slot

/-- The association list produced by ring allocation of the addresses
`pcs`, starting at counter value `c`: the i-th address is paired with the
counter value after i wrapping increments. -/
def ringIds (w c : Nat) : List Nat → List (Nat × Nat)
  | [] => []
  | a :: rest => (a, c) :: ringIds w ((c + 1) % w) rest

/-! ## Call-site scanner (`QemuCmpLogRoutinesHelper`, cmplog.rs lines 219-348)

The capstone disassembler is an external collaborator: it is modelled as an
abstract `Decoder` mapping the current decode mode and an address to the
outcome of `disasm_count(code, addr, 1)` — an error, an empty result, or
one decoded instruction carrying its byte length and semantic groups.
The scan is modelled as the trace of observable actions it performs
(`set_mode`, one-instruction decodes, `set_hook` installations), plus the
helper state and the value returned to the hook framework. -/

/-- The capstone semantic instruction groups inspected by the scanner. -/
inductive InsnGroup
  | call
  | ret
  | invalid
  | jump
  | iret
  | privilege
  | other (n : Nat)
  deriving Repr, DecidableEq

/-- One decoded instruction: its byte length (`insn.bytes().len()`) and
its semantic groups (`insn_detail.groups()`), in order. -/
structure DecodedInsn where
  len : Nat
  groups : List InsnGroup
  deriving Repr, DecidableEq

/-- The capstone decode mode (`cs.set_mode`): ARM wide, ARM narrow
(Thumb), or any other architecture's fixed mode. -/
inductive CsMode
  | armMode
  | thumbMode
  | otherMode
  deriving Repr, DecidableEq

/-- Outcome of `cs.disasm_count(code, iaddr, 1)`: `Err` ends the `while
let` loop, an empty instruction list breaks, otherwise one instruction is
decoded. -/
inductive DecodeOutcome
  | err
  | empty
  | ok (i : DecodedInsn)
  deriving Repr, DecidableEq

/-- The external disassembler, as a function of the current mode and the
decode address (the guest memory read through `g2h` is folded into it). -/
abbrev Decoder := CsMode → Nat → DecodeOutcome

/-- Observable actions of one block scan: a `cs.set_mode` call, a
successful one-instruction decode at an address, or an
`emu.set_hook(addr, on_call, k, false)` installation. -/
inductive ScanEvent
  | modeSet (m : CsMode)
  | decode (addr : Nat)
  | hook (addr : Nat) (id : Nat)
  deriving Repr, DecidableEq

/-- `QemuCmpLogRoutinesHelper` (cmplog.rs lines 221-224): the
instrumentation filter plus the capstone handle, of which only the decode
mode is observable state. -/
structure QemuCmpLogRoutinesHelper where
  filter : Nat → Bool
  csMode : CsMode

/-- The mode selected for a block start address on ARM (cmplog.rs lines
283-288): Thumb when the low bit of `pc` is set, ARM otherwise. -/
def modeForAddr (a : Nat) : CsMode :=
  if a &&& 1 == 1 then CsMode.thumbMode else CsMode.armMode

/-- The `for detail in insn_detail.groups()` loop body (cmplog.rs lines
316-331): call groups install a hook at the instruction's address bound to
`hash_me(pc) & (CMPLOG_MAP_W - 1)`; terminator groups break out of the
disassembly loop (second component `true`). -/
def scanGroups (w pc iaddr : Nat) : List InsnGroup → List ScanEvent × Bool
  | [] => ([], false)
  | g :: rest =>
    match g with
    | InsnGroup.call =>
      let k := hash_me pc &&& (w - 1)
      let (evs, t) := scanGroups w pc iaddr rest
      (ScanEvent.hook iaddr k :: evs, t)
    | InsnGroup.ret | InsnGroup.invalid | InsnGroup.jump
    | InsnGroup.iret | InsnGroup.privilege => ([], true)
    | InsnGroup.other _ => scanGroups w pc iaddr rest

/-- The `'disasm: while let Ok(insns) = h.cs.disasm_count(..)` loop
(cmplog.rs lines 310-343), with an explicit fuel bound on the number of
iterations (the Rust loop stops only on decode failure, an empty result or
a terminator group; every theorem below holds for every fuel). -/
def scanLoop (w : Nat) (dec : Decoder) (m : CsMode) (pc : Nat) :
    Nat → Nat → List ScanEvent
  | 0, _ => []
  | fuel + 1, iaddr =>
    match dec m iaddr with
    | DecodeOutcome.err => []
    | DecodeOutcome.empty => []
    | DecodeOutcome.ok insn =>
      let (evs, term) := scanGroups w pc iaddr insn.groups
      ScanEvent.decode iaddr :: evs
        ++ (if term then [] else scanLoop w dec m pc fuel (iaddr + insn.len))

/-- Result of one `gen_blocks_calls` invocation: the trace of observable
actions, the helper's state afterwards, and the value returned to the hook
framework. -/
structure ScanResult where
  events : List ScanEvent
  helper : Option QemuCmpLogRoutinesHelper
  ret : Option Nat

/-- `gen_blocks_calls` (cmplog.rs lines 268-347): the translation-time
block callback.  If the helper is registered and its filter rejects the
block start, return `None` immediately; otherwise (on ARM targets,
`armTarget`) re-derive the decode mode from the low bit of `pc`, scan the
block, and return `None`. -/
def gen_blocks_calls (w : Nat) (armTarget : Bool) (dec : Decoder)
    (helper : Option QemuCmpLogRoutinesHelper) (fuel : Nat) (pc : Nat) :
    ScanResult :=
  match helper with
  | none => { events := [], helper := none, ret := none }
  | some h =>
    if h.filter pc then
      let m := if armTarget then modeForAddr pc else h.csMode
      let modeEvs := if armTarget then [ScanEvent.modeSet m] else []
      { events := modeEvs ++ scanLoop w dec m pc fuel pc,
        helper := some { filter := h.filter, csMode := m },
        ret := none }
    else
      { events := [], helper := some h, ret := none }

/-- The hook installations contained in a scan trace, in order. -/
def hookEvents : List ScanEvent → List (Nat × Nat)
  | [] => []
  | ScanEvent.hook a k :: rest => (a, k) :: hookEvents rest
  | _ :: rest => hookEvents rest

/-- The number of `cs.set_mode` calls in a scan trace. -/
def countModeSets : List ScanEvent → Nat
  | [] => 0
  | ScanEvent.modeSet _ :: rest => countModeSets rest + 1
  | _ :: rest => countModeSets rest

/-- Whether the decoder, in the given mode, decodes an instruction with
the call group at the given address. -/
def decodesCallAt (dec : Decoder) (m : CsMode) (a : Nat) : Bool :=
  match dec m a with
  | DecodeOutcome.ok insn => decide (InsnGroup.call ∈ insn.groups)
  | _ => false

/-- The formal reading of "the decode mode is re-derived from the target
address's low bits before each individual instruction decode": every
decode event in the trace is immediately preceded by a `set_mode` of the
mode derived from that decode's address. -/
def modeRederivedBeforeEachDecode : List ScanEvent → Bool
  | ScanEvent.modeSet m :: ScanEvent.decode a :: rest =>
    (m == modeForAddr a) && modeRederivedBeforeEachDecode rest
  | ScanEvent.decode _ :: _ => false
  | _ :: rest => modeRederivedBeforeEachDecode rest
  | [] => true

/-- Concrete straight-line block used as a counterexample fixture: a
non-call instruction at 4096, a call at 4100, a return at 4105. -/
def callNotFirstBlock : Decoder := fun _ a =>
  if a = 4096 then DecodeOutcome.ok { len := 4, groups := [InsnGroup.other 0] }
  else if a = 4100 then DecodeOutcome.ok { len := 5, groups := [InsnGroup.call] }
  else if a = 4105 then DecodeOutcome.ok { len := 1, groups := [InsnGroup.ret] }
  else DecodeOutcome.err

/-- Concrete straight-line block used as a counterexample fixture: two
plain instructions at 4096 and 4100, a return at 4104. -/
def twoPlainInsnBlock : Decoder := fun _ a =>
  if a = 4096 then DecodeOutcome.ok { len := 4, groups := [InsnGroup.other 0] }
  else if a = 4100 then DecodeOutcome.ok { len := 4, groups := [InsnGroup.other 1] }
  else if a = 4104 then DecodeOutcome.ok { len := 4, groups := [InsnGroup.ret] }
  else DecodeOutcome.err

/-! ## Call-argument runtime hook (`on_call`, cmplog.rs lines 241-266) -/

/-- `QemuCmpLogRoutinesHelper::on_call` (cmplog.rs lines 241-266): the
runtime hook at an installed call site.  `g2h` is the emulator's
guest-to-host translation; `arg0`/`arg1` are the results of
`read_function_argument` (with `none` for an unresolvable argument, mapped
to 0 by `unwrap_or(0)`); `k` is the slot id bound at installation.  The
result is the `(slot id, host range 0, host range 1)` triple forwarded to
`__libafl_targets_cmplog_routines`, or `none` when nothing is recorded. -/
def on_call (g2h : Nat → Nat) (enabled : Nat) (arg0 arg1 : Option Nat)
    (k : Nat) : Option (Nat × Nat × Nat) :=
  if enabled == 0 then none
  else
    let a0 := arg0.getD 0
    let a1 := arg1.getD 0
    if a0 == 0 || a1 == 0 then none
    else some (k, g2h a0, g2h a1)

/-- Whether a `gen_unique_cmp_ids` result is the modelled
`state.expect(...)` panic. -/
def isPanic : Except String (Option MetaSlot × Option Nat) → Bool
  | Except.error _ => true
  | Except.ok _ => false

/-- The ring-allocation invariant on a metadata slot: the counter and
every stored id are below the map width. -/
def MetaInv (w : Nat) (slot : MetaSlot) : Prop :=
  ∀ meta, slot = some meta →
    meta.current_id < w ∧ ∀ p ∈ meta.map, p.2 < w

/-- An address that already has a stored slot id in the metadata slot. -/
def HasEntry (slot : MetaSlot) (pc id : Nat) : Prop :=
  ∃ meta, slot = some meta ∧ mapGet meta.map pc = some id

example : gen_unique_cmp_ids 4 none (some none) 100 =
    Except.ok (some (some { map := [(100, 0)], current_id := 1 }), some 0) := by
  rfl

example : allocList 2 none none [10, 20, 30] =
    some { map := [(10, 0), (20, 1), (30, 0)], current_id := 1 } := by
  decide

example : allocId 2 none (allocList 2 none none [10, 20, 30]) 10 = some 0 := by
  decide

example : gen_unique_cmp_ids 4 (some fun a => decide (a < 50)) none 100 =
    Except.ok (none, none) := by
  rfl

example : gen_hashed_cmp_ids CMPLOG_MAP_W none (some none) 4096 =
    (some none, some 20480) := by
  decide

end Cmplog

namespace Cmplog

/-! ## Association-list lemmas -/

theorem mapGet_append_left {m : List (Nat × Nat)} {k v : Nat}
    (l : List (Nat × Nat)) (h : mapGet m k = some v) :
    mapGet (m ++ l) k = some v := by
  induction m with
  | nil => simp [mapGet] at h
  | cons p rest ih =>
    by_cases hp : p.1 = k
    · simpa [mapGet, hp] using h
    · simp only [mapGet, hp, if_false, List.cons_append] at h ⊢
      exact ih h

theorem mapGet_append_right {m : List (Nat × Nat)} {k : Nat}
    (l : List (Nat × Nat)) (h : mapGet m k = none) :
    mapGet (m ++ l) k = mapGet l k := by
  induction m with
  | nil => simp
  | cons p rest ih =>
    by_cases hp : p.1 = k
    · simp [mapGet, hp] at h
    · simp only [mapGet, hp, if_false, List.cons_append] at h ⊢
      exact ih h

theorem mapGet_mem {m : List (Nat × Nat)} {k v : Nat}
    (h : mapGet m k = some v) : (k, v) ∈ m := by
  induction m with
  | nil => simp [mapGet] at h
  | cons p rest ih =>
    obtain ⟨a, b⟩ := p
    by_cases hp : a = k
    · simp only [mapGet, hp, if_true] at h
      obtain rfl : b = v := by simpa using h
      simp [hp]
    · simp only [mapGet, hp, if_false] at h
      exact List.mem_cons_of_mem _ (ih h)

theorem mapGet_singleton (k v : Nat) : mapGet [(k, v)] k = some v := by
  simp [mapGet]

/-! ## Case lemmas for the stable allocator -/

theorem gen_unique_reject {hf : Option (Nat → Bool)} {pc : Nat}
    (w : Nat) (state : Option MetaSlot)
    (h : filterRejects hf pc = true) :
    gen_unique_cmp_ids w hf state pc = Except.ok (state, none) := by
  simp [gen_unique_cmp_ids, h]

theorem gen_unique_hit {hf : Option (Nat → Bool)} {pc id : Nat}
    {meta : QemuCmpsMapMetadata} (w : Nat)
    (hfr : filterRejects hf pc = false)
    (h : mapGet meta.map pc = some id) :
    gen_unique_cmp_ids w hf (some (some meta)) pc
      = Except.ok (some (some meta), some id) := by
  simp [gen_unique_cmp_ids, hfr, h]

theorem gen_unique_miss {hf : Option (Nat → Bool)} {pc : Nat}
    {meta : QemuCmpsMapMetadata} (w : Nat)
    (hfr : filterRejects hf pc = false)
    (h : mapGet meta.map pc = none) :
    gen_unique_cmp_ids w hf (some (some meta)) pc
      = Except.ok
          (some (some { map := meta.map ++ [(pc, meta.current_id)],
                        current_id := (meta.current_id + 1) &&& (w - 1) }),
           some meta.current_id) := by
  simp [gen_unique_cmp_ids, hfr, h]

theorem gen_unique_no_meta {hf : Option (Nat → Bool)} {pc : Nat} (w : Nat)
    (hfr : filterRejects hf pc = false) :
    gen_unique_cmp_ids w hf (some none) pc
      = Except.ok
          (some (some { map := [(pc, 0)], current_id := 1 &&& (w - 1) }),
           some 0) := by
  simp [gen_unique_cmp_ids, hfr, QemuCmpsMapMetadata.new, mapGet]


theorem allocStep_reject {hf : Option (Nat → Bool)} {pc : Nat}
    (w : Nat) (slot : MetaSlot)
    (h : filterRejects hf pc = true) :
    allocStep w hf slot pc = slot := by
  simp [allocStep, gen_unique_reject w (some slot) h]

theorem allocStep_hit {hf : Option (Nat → Bool)} {pc id : Nat}
    {meta : QemuCmpsMapMetadata} (w : Nat)
    (hfr : filterRejects hf pc = false)
    (h : mapGet meta.map pc = some id) :
    allocStep w hf (some meta) pc = some meta := by
  simp [allocStep, gen_unique_hit w hfr h]

theorem allocStep_miss {hf : Option (Nat → Bool)} {pc : Nat}
    {meta : QemuCmpsMapMetadata} (w : Nat)
    (hfr : filterRejects hf pc = false)
    (h : mapGet meta.map pc = none) :
    allocStep w hf (some meta) pc
      = some { map := meta.map ++ [(pc, meta.current_id)],
               current_id := (meta.current_id + 1) &&& (w - 1) } := by
  simp [allocStep, gen_unique_miss w hfr h]

theorem allocStep_no_meta {hf : Option (Nat → Bool)} {pc : Nat} (w : Nat)
    (hfr : filterRejects hf pc = false) :
    allocStep w hf none pc
      = some { map := [(pc, 0)], current_id := 1 &&& (w - 1) } := by
  simp [allocStep, gen_unique_no_meta w hfr]

theorem hasEntry_allocStep {slot : MetaSlot} {pc id : Nat}
    (w : Nat) (hf : Option (Nat → Bool)) (pc' : Nat)
    (h : HasEntry slot pc id) :
    HasEntry (allocStep w hf slot pc') pc id := by
  obtain ⟨meta, rfl, hm⟩ := h
  by_cases hr : filterRejects hf pc' = true
  · rw [allocStep_reject w _ hr]
    exact ⟨meta, rfl, hm⟩
  · rw [Bool.not_eq_true] at hr
    cases hhit : mapGet meta.map pc' with
    | some id' =>
      rw [allocStep_hit w hr hhit]
      exact ⟨meta, rfl, hm⟩
    | none =>
      rw [allocStep_miss w hr hhit]
      exact ⟨_, rfl, mapGet_append_left _ hm⟩

theorem hasEntry_allocList {slot : MetaSlot} {pc id : Nat}
    (w : Nat) (hf : Option (Nat → Bool)) (pcs : List Nat)
    (h : HasEntry slot pc id) :
    HasEntry (allocList w hf slot pcs) pc id := by
  induction pcs generalizing slot with
  | nil => exact h
  | cons a rest ih =>
    exact ih (hasEntry_allocStep w hf a h)

theorem gen_unique_some_id_hasEntry {w : Nat} {hf : Option (Nat → Bool)}
    {slot : MetaSlot} {pc id : Nat} {st : Option MetaSlot}
    (h : gen_unique_cmp_ids w hf (some slot) pc = Except.ok (st, some id)) :
    ∃ s1, st = some s1 ∧ HasEntry s1 pc id := by
  by_cases hr : filterRejects hf pc = true
  · rw [gen_unique_reject w (some slot) hr] at h
    simp at h
  · rw [Bool.not_eq_true] at hr
    cases slot with
    | none =>
      rw [gen_unique_no_meta w hr] at h
      obtain ⟨h1, h2⟩ := by simpa using h
      subst h1 h2
      exact ⟨_, rfl, _, rfl, mapGet_singleton pc 0⟩
    | some meta =>
      cases hhit : mapGet meta.map pc with
      | some id' =>
        rw [gen_unique_hit w hr hhit] at h
        obtain ⟨h1, h2⟩ := by simpa using h
        subst h1 h2
        exact ⟨_, rfl, meta, rfl, hhit⟩
      | none =>
        rw [gen_unique_miss w hr hhit] at h
        obtain ⟨h1, h2⟩ := by simpa using h
        subst h1 h2
        refine ⟨_, rfl, _, rfl, ?_⟩
        rw [mapGet_append_right _ hhit]
        exact mapGet_singleton pc meta.current_id

theorem gen_unique_of_hasEntry {slot : MetaSlot} {pc id : Nat}
    (w : Nat) {hf : Option (Nat → Bool)}
    (hfr : filterRejects hf pc = false)
    (h : HasEntry slot pc id) :
    gen_unique_cmp_ids w hf (some slot) pc
      = Except.ok (some slot, some id) := by
  obtain ⟨meta, rfl, hm⟩ := h
  exact gen_unique_hit w hfr hm

/-- C1. Stable allocation is idempotent: once a call of
`gen_unique_cmp_ids` has assigned slot id `id` to address `pc` within a
state's lifetime, every later call on the same address and state — after
any further sequence of allocations on that state — returns the same id,
leaves the state unchanged, and the stored address-to-id entry for `pc`
is still `id`. -/
theorem gen_unique_cmp_ids_idempotent
    (w : Nat) (hf hfMid hf2 : Option (Nat → Bool))
    (slot s1 : MetaSlot) (pc id : Nat) (pcs : List Nat)
    (h1 : gen_unique_cmp_ids w hf (some slot) pc = Except.ok (some s1, some id))
    (h2 : filterRejects hf2 pc = false) :
    (gen_unique_cmp_ids w hf2 (some (allocList w hfMid s1 pcs)) pc
        = Except.ok (some (allocList w hfMid s1 pcs), some id))
      ∧ HasEntry (allocList w hfMid s1 pcs) pc id := by
  obtain ⟨s1', e, hE⟩ := gen_unique_some_id_hasEntry h1
  obtain rfl : s1 = s1' := Option.some.inj e
  have hE2 := hasEntry_allocList w hfMid pcs hE
  exact ⟨gen_unique_of_hasEntry w h2 hE2, hE2⟩

/-- Witness for C1 at a concrete state: address 7 is assigned id 0; after
further allocations of 1, 2, 3 on the same state, a later call on 7 still
returns id 0 and leaves the state unchanged. -/
theorem gen_unique_cmp_ids_idempotent_witness :
    (gen_unique_cmp_ids 4 none
        (some (allocList 4 none
          (some { map := [(7, 0)], current_id := 1 }) [1, 2, 3])) 7
      = Except.ok
          (some (allocList 4 none
            (some { map := [(7, 0)], current_id := 1 }) [1, 2, 3]),
           some 0))
      ∧ HasEntry (allocList 4 none
          (some { map := [(7, 0)], current_id := 1 }) [1, 2, 3]) 7 0 :=
  gen_unique_cmp_ids_idempotent 4 none none none none
    (some { map := [(7, 0)], current_id := 1 }) 7 0 [1, 2, 3]
    (by rfl) (by rfl)


/-! ## Boundedness of allocated ids -/

theorem metaInv_none (w : Nat) : MetaInv w none := by
  intro meta h
  cases h

theorem metaInv_allocStep {w : Nat} {slot : MetaSlot}
    (hf : Option (Nat → Bool)) (pc : Nat) (hw : 0 < w)
    (hinv : MetaInv w slot) :
    MetaInv w (allocStep w hf slot pc) := by
  have hmask : ∀ x : Nat, x &&& (w - 1) < w := fun x =>
    Nat.lt_of_le_of_lt Nat.and_le_right (Nat.sub_lt hw Nat.one_pos)
  by_cases hr : filterRejects hf pc = true
  · rwa [allocStep_reject w _ hr]
  · rw [Bool.not_eq_true] at hr
    cases slot with
    | none =>
      rw [allocStep_no_meta w hr]
      intro meta h
      have e := Option.some.inj h
      subst e
      refine ⟨hmask 1, ?_⟩
      intro p hp
      obtain rfl := by simpa using hp
      exact hw
    | some meta =>
      cases hhit : mapGet meta.map pc with
      | some id => rwa [allocStep_hit w hr hhit]
      | none =>
        rw [allocStep_miss w hr hhit]
        intro meta' h
        obtain rfl := by simpa using h
        refine ⟨hmask _, ?_⟩
        intro p hp
        rcases List.mem_append.1 hp with hp | hp
        · exact (hinv meta rfl).2 p hp
        · obtain rfl := by simpa using hp
          exact (hinv meta rfl).1

theorem metaInv_allocList {w : Nat} {slot : MetaSlot}
    (hf : Option (Nat → Bool)) (pcs : List Nat) (hw : 0 < w)
    (hinv : MetaInv w slot) :
    MetaInv w (allocList w hf slot pcs) := by
  induction pcs generalizing slot with
  | nil => exact hinv
  | cons a rest ih => exact ih (metaInv_allocStep hf a hw hinv)

theorem gen_unique_id_lt {w : Nat} {hf : Option (Nat → Bool)}
    {slot : MetaSlot} {pc id : Nat} {st : Option MetaSlot}
    (hw : 0 < w) (hinv : MetaInv w slot)
    (h : gen_unique_cmp_ids w hf (some slot) pc = Except.ok (st, some id)) :
    id < w := by
  by_cases hr : filterRejects hf pc = true
  · rw [gen_unique_reject w (some slot) hr] at h
    simp at h
  · rw [Bool.not_eq_true] at hr
    cases slot with
    | none =>
      rw [gen_unique_no_meta w hr] at h
      obtain ⟨-, rfl⟩ := by simpa using h
      exact hw
    | some meta =>
      cases hhit : mapGet meta.map pc with
      | some id' =>
        rw [gen_unique_hit w hr hhit] at h
        obtain ⟨-, rfl⟩ := by simpa using h
        exact (hinv meta rfl).2 _ (mapGet_mem hhit)
      | none =>
        rw [gen_unique_miss w hr hhit] at h
        obtain ⟨-, rfl⟩ := by simpa using h
        exact (hinv meta rfl).1

theorem gen_hashed_id_lt {w : Nat} {hf : Option (Nat → Bool)}
    {s : Option MetaSlot} {pc id : Nat} {st : Option MetaSlot}
    (hw : 0 < w)
    (h : gen_hashed_cmp_ids w hf s pc = (st, some id)) :
    id < w := by
  by_cases hr : filterRejects hf pc = true
  · simp [gen_hashed_cmp_ids, hr] at h
  · rw [Bool.not_eq_true] at hr
    simp only [gen_hashed_cmp_ids, hr, Bool.false_eq_true, if_false] at h
    obtain ⟨-, rfl⟩ := by simpa using h.symm
    exact Nat.lt_of_le_of_lt Nat.and_le_right (Nat.sub_lt hw Nat.one_pos)

/-- C4. Every slot id returned by either allocator variant is strictly
below `CMPLOG_MAP_W`: for every address, helper filter, and sequence of
prior stable allocations on a state that started without site metadata,
when `gen_unique_cmp_ids` returns an id it is below `CMPLOG_MAP_W`, and
whenever `gen_hashed_cmp_ids` returns an id it is below `CMPLOG_MAP_W`. -/
theorem allocated_ids_bounded
    (hf hfMid hf2 : Option (Nat → Bool)) (pcs : List Nat) (pc pc2 : Nat)
    (st st2 s2 : Option MetaSlot) (id id2 : Nat)
    (h1 : gen_unique_cmp_ids CMPLOG_MAP_W hf
            (some (allocList CMPLOG_MAP_W hfMid none pcs)) pc
          = Except.ok (st, some id))
    (h2 : gen_hashed_cmp_ids CMPLOG_MAP_W hf2 s2 pc2 = (st2, some id2)) :
    id < CMPLOG_MAP_W ∧ id2 < CMPLOG_MAP_W := by
  have hw : 0 < CMPLOG_MAP_W := by decide
  refine ⟨gen_unique_id_lt hw ?_ h1, gen_hashed_id_lt hw h2⟩
  exact metaInv_allocList hfMid pcs hw (metaInv_none _)

/-- Witness for C4 at concrete inputs: after allocating 10 and 20 on a
fresh state, allocating 30 yields id 2, below the map width, and a hashed
allocation at 4096 yields id 20480, below the map width. -/
theorem allocated_ids_bounded_witness :
    (2 : Nat) < CMPLOG_MAP_W ∧ (20480 : Nat) < CMPLOG_MAP_W :=
  allocated_ids_bounded none none none [10, 20] 30 4096
    (some (some { map := [(10, 0), (20, 1), (30, 2)], current_id := 3 }))
    (some none) (some none) 2 20480
    (by rfl) (by rfl)


/-! ## Purity of hashed allocation -/

theorem and_mask_eq_mod {w : Nat} (k x : Nat) (hw : w = 2 ^ k) :
    x &&& (w - 1) = x % w := by
  subst hw
  exact Nat.and_pow_two_sub_one_eq_mod x k

/-- C5. Hashed allocation is a deterministic pure function of the
address: any two calls of `gen_hashed_cmp_ids` on the same address, with
possibly different fuzzing states and with filters that allow the address,
both return the id `hash_me pc % w` and both return the fuzzing state
unchanged. -/
theorem gen_hashed_cmp_ids_pure
    (w k : Nat) (hw : w = 2 ^ k)
    (hf1 hf2 : Option (Nat → Bool)) (s1 s2 : Option MetaSlot) (pc : Nat)
    (h1 : filterRejects hf1 pc = false)
    (h2 : filterRejects hf2 pc = false) :
    gen_hashed_cmp_ids w hf1 s1 pc = (s1, some (hash_me pc % w))
      ∧ gen_hashed_cmp_ids w hf2 s2 pc = (s2, some (hash_me pc % w)) := by
  have hmask : hash_me pc % w = hash_me pc &&& (w - 1) :=
    (and_mask_eq_mod k _ hw).symm
  rw [hmask]
  constructor <;> simp [gen_hashed_cmp_ids, h1, h2]

/-- Witness for C5: two hashed allocations at address 4096, one on a state
with metadata and one on a state without, both return id 20480 and leave
their state untouched. -/
theorem gen_hashed_cmp_ids_pure_witness :
    gen_hashed_cmp_ids CMPLOG_MAP_W none (some none) 4096
        = (some none, some (hash_me 4096 % CMPLOG_MAP_W))
      ∧ gen_hashed_cmp_ids CMPLOG_MAP_W none
          (some (some { map := [(1, 2)], current_id := 3 })) 4096
        = (some (some { map := [(1, 2)], current_id := 3 }),
           some (hash_me 4096 % CMPLOG_MAP_W)) :=
  gen_hashed_cmp_ids_pure CMPLOG_MAP_W 16 (by decide) none none
    (some none) (some (some { map := [(1, 2)], current_id := 3 })) 4096
    (by rfl) (by rfl)


/-! ## Ring allocation -/

theorem mapGet_ringIds_of_not_mem {a : Nat} {pcs : List Nat}
    (w c : Nat) (h : a ∉ pcs) :
    mapGet (ringIds w c pcs) a = none := by
  induction pcs generalizing c with
  | nil => rfl
  | cons b rest ih =>
    have hb : b ≠ a := fun e => h (e ▸ List.mem_cons_self b rest)
    simp only [ringIds, mapGet, hb, if_false]
    exact ih _ (fun hm => h (List.mem_cons_of_mem _ hm))

theorem mapGet_ringIds_get {w : Nat} {pcs : List Nat}
    (c : Nat) (hc : c < w) (hnd : pcs.Nodup) (i : Nat) (h : i < pcs.length) :
    mapGet (ringIds w c pcs) (pcs.get ⟨i, h⟩) = some ((c + i) % w) := by
  induction pcs generalizing c i with
  | nil => exact absurd h (Nat.not_lt_zero i)
  | cons b rest ih =>
    have hw : 0 < w := Nat.lt_of_le_of_lt (Nat.zero_le c) hc
    cases i with
    | zero =>
      simp [ringIds, mapGet, Nat.mod_eq_of_lt hc]
    | succ j =>
      have hj : j < rest.length := by simpa using h
      have hgetmem : rest.get ⟨j, hj⟩ ∈ rest := List.get_mem rest j hj
      have hb : b ≠ rest.get ⟨j, hj⟩ := by
        intro e
        exact (List.nodup_cons.1 hnd).1 (e ▸ hgetmem)
      have hrec := ih ((c + 1) % w) (Nat.mod_lt _ hw) (List.nodup_cons.1 hnd).2 j hj
      simp only [ringIds, List.get_cons_succ, mapGet, hb, if_false]
      rw [hrec, Nat.mod_add_mod]
      have he : c + 1 + j = c + (j + 1) := by omega
      rw [he]

theorem allocList_fresh {w k : Nat} (hw : w = 2 ^ k)
    (pcs : List Nat) (m0 : List (Nat × Nat)) (c0 : Nat) (hc : c0 < w)
    (hnd : pcs.Nodup) (hfresh : ∀ a ∈ pcs, mapGet m0 a = none) :
    allocList w none (some { map := m0, current_id := c0 }) pcs
      = some { map := m0 ++ ringIds w c0 pcs,
               current_id := (c0 + pcs.length) % w } := by
  induction pcs generalizing m0 c0 with
  | nil =>
    simp [allocList, ringIds, Nat.mod_eq_of_lt hc]
  | cons a rest ih =>
    have hw0 : 0 < w := by
      subst hw
      exact Nat.two_pow_pos k
    have hmask : ∀ x : Nat, x &&& (w - 1) = x % w := fun x =>
      and_mask_eq_mod k x hw
    have hfa : mapGet m0 a = none := hfresh a (List.mem_cons_self a rest)
    have hfr : filterRejects (none : Option (Nat → Bool)) a = false := rfl
    have hstep : allocStep w none (some { map := m0, current_id := c0 }) a
        = some { map := m0 ++ [(a, c0)], current_id := (c0 + 1) % w } := by
      have h1 := @allocStep_miss none a { map := m0, current_id := c0 } w hfr hfa
      simpa [hmask] using h1
    have hfresh2 : ∀ b ∈ rest, mapGet (m0 ++ [(a, c0)]) b = none := by
      intro b hb
      have hab : a ≠ b := fun e => (List.nodup_cons.1 hnd).1 (e ▸ hb)
      rw [mapGet_append_right _ (hfresh b (List.mem_cons_of_mem _ hb))]
      simp [mapGet, hab]
    have hrec := ih (m0 ++ [(a, c0)]) ((c0 + 1) % w) (Nat.mod_lt _ hw0)
      (List.nodup_cons.1 hnd).2 hfresh2
    show allocList w none
        (allocStep w none (some { map := m0, current_id := c0 }) a) rest = _
    rw [hstep, hrec]
    simp only [ringIds, List.append_assoc, List.singleton_append, List.length_cons]
    rw [Nat.mod_add_mod]
    have he : c0 + 1 + rest.length = c0 + (rest.length + 1) := by omega
    rw [he]


theorem allocId_hit {hf : Option (Nat → Bool)} {pc id : Nat}
    {meta : QemuCmpsMapMetadata} (w : Nat)
    (hfr : filterRejects hf pc = false)
    (h : mapGet meta.map pc = some id) :
    allocId w hf (some meta) pc = some id := by
  simp [allocId, gen_unique_hit w hfr h]

theorem allocId_miss {hf : Option (Nat → Bool)} {pc : Nat}
    {meta : QemuCmpsMapMetadata} (w : Nat)
    (hfr : filterRejects hf pc = false)
    (h : mapGet meta.map pc = none) :
    allocId w hf (some meta) pc = some meta.current_id := by
  simp [allocId, gen_unique_miss w hfr h]


/-- C3. Under stable allocation a fresh address is assigned the current
counter value as its id and the counter advances to (counter + 1) mod W;
entries are never evicted, so after W distinct addresses allocated from an
empty state the (W+1)-th distinct address receives the wrapped counter
position 0 while each earlier address keeps its original id. -/
theorem stable_allocation_ring
    (w k : Nat) (hw : w = 2 ^ k)
    (hf : Option (Nat → Bool)) (meta : QemuCmpsMapMetadata) (pc : Nat)
    (hfr : filterRejects hf pc = false)
    (hfresh : mapGet meta.map pc = none)
    (pcs : List Nat) (D i : Nat)
    (hnd : pcs.Nodup) (hlen : pcs.length = w) (hD : D ∉ pcs) (hi : i < w) :
    gen_unique_cmp_ids w hf (some (some meta)) pc
      = Except.ok
          (some (some { map := meta.map ++ [(pc, meta.current_id)],
                        current_id := (meta.current_id + 1) % w }),
           some meta.current_id)
    ∧ allocId w none (allocList w none (some QemuCmpsMapMetadata.new) pcs) D
        = some 0
    ∧ allocId w none (allocList w none (some QemuCmpsMapMetadata.new) pcs)
        (pcs.get ⟨i, by omega⟩) = some i := by
  have hw0 : 0 < w := by
    subst hw
    exact Nat.two_pow_pos k
  have hmask : ∀ x : Nat, x &&& (w - 1) = x % w := fun x =>
    and_mask_eq_mod k x hw
  have hfr0 : filterRejects (none : Option (Nat → Bool)) D = false := rfl
  have hfr1 : filterRejects (none : Option (Nat → Bool))
      (pcs.get ⟨i, by omega⟩) = false := rfl
  have hchar : allocList w none (some QemuCmpsMapMetadata.new) pcs
      = some { map := ringIds w 0 pcs, current_id := 0 } := by
    have h1 := allocList_fresh hw pcs [] 0 hw0 hnd (by intro a ha; rfl)
    simpa [QemuCmpsMapMetadata.new, hlen] using h1
  refine ⟨?_, ?_, ?_⟩
  · rw [gen_unique_miss w hfr hfresh, hmask]
  · rw [hchar]
    have hmiss : mapGet (ringIds w 0 pcs) D = none :=
      mapGet_ringIds_of_not_mem w 0 hD
    rw [allocId_miss w hfr0 hmiss]
  · rw [hchar]
    have hget : mapGet (ringIds w 0 pcs) (pcs.get ⟨i, by omega⟩)
        = some ((0 + i) % w) :=
      mapGet_ringIds_get 0 hw0 hnd i (by omega)
    rw [allocId_hit w hfr1 hget]
    simp [Nat.mod_eq_of_lt hi]

/-- Witness for C3 at W = 2: a fresh address 9 on a state with counter 7
gets id 7 and the counter wraps to (7+1) mod 2; after allocating the two
distinct addresses 10, 20 from an empty state, the third distinct address
30 gets the wrapped id 0 while address 20 still has its original id 1. -/
theorem stable_allocation_ring_witness :
    gen_unique_cmp_ids 2 none
        (some (some { map := [(5, 3)], current_id := 7 })) 9
      = Except.ok
          (some (some { map := [(5, 3)] ++ [(9, 7)],
                        current_id := (7 + 1) % 2 }),
           some 7)
    ∧ allocId 2 none (allocList 2 none (some QemuCmpsMapMetadata.new) [10, 20]) 30
        = some 0
    ∧ allocId 2 none (allocList 2 none (some QemuCmpsMapMetadata.new) [10, 20])
        (([10, 20] : List Nat).get ⟨1, by decide⟩) = some 1 :=
  stable_allocation_ring 2 1 (by decide) none
    { map := [(5, 3)], current_id := 7 } 9 rfl (by decide)
    [10, 20] 30 1 (by decide) (by decide) (by decide) (by decide)


/-! ## Panic behavior of the stable allocator -/

/-- C7 counterexample: with no fuzzing state but a filter that rejects
the address, `gen_unique_cmp_ids` returns `None` without panicking — the
filter gate (cmplog.rs lines 155-159) runs before the
`state.expect(...)` (line 160), so "panics exactly when its state argument
is None" fails right-to-left. -/
theorem gen_unique_no_state_no_panic :
    gen_unique_cmp_ids CMPLOG_MAP_W (some fun _ => false) none 0
        = Except.ok (none, none)
      ∧ isPanic (gen_unique_cmp_ids CMPLOG_MAP_W (some fun _ => false) none 0)
        = false := by
  constructor <;> rfl

/-- C7 (amended). `gen_unique_cmp_ids` panics exactly when its state
argument is None and the instrumentation gate does not reject the address
(a rejected address returns None before the state is touched); with a
state present it never fails, and missing site metadata is lazily
initialized to the empty map with counter 0 before the allocation
proceeds (the first address then receives id 0). -/
theorem gen_unique_panic_iff
    (w : Nat) (hf : Option (Nat → Bool)) (state : Option MetaSlot) (pc : Nat) :
    (isPanic (gen_unique_cmp_ids w hf state pc) = true
       ↔ state = none ∧ filterRejects hf pc = false)
    ∧ (filterRejects hf pc = false →
        gen_unique_cmp_ids w hf (some none) pc
          = Except.ok
              (some (some { map := [(pc, 0)], current_id := 1 &&& (w - 1) }),
               some 0)) := by
  refine ⟨⟨?_, ?_⟩, fun hallow => gen_unique_no_meta w hallow⟩
  · intro h
    by_cases hr : filterRejects hf pc = true
    · rw [gen_unique_reject w state hr] at h
      simp [isPanic] at h
    · rw [Bool.not_eq_true] at hr
      refine ⟨?_, hr⟩
      cases state with
      | none => rfl
      | some slot =>
        exfalso
        cases slot with
        | none =>
          rw [gen_unique_no_meta w hr] at h
          simp [isPanic] at h
        | some meta =>
          cases hhit : mapGet meta.map pc with
          | some id =>
            rw [gen_unique_hit w hr hhit] at h
            simp [isPanic] at h
          | none =>
            rw [gen_unique_miss w hr hhit] at h
            simp [isPanic] at h
  · rintro ⟨rfl, hr⟩
    simp [gen_unique_cmp_ids, hr, isPanic]

/-- Witness for the amended C7: at address 5 with no helper filter, the
call panics exactly when the state is absent, and a state whose metadata
slot is empty is lazily initialized. -/
theorem gen_unique_panic_iff_witness :
    (isPanic (gen_unique_cmp_ids 4 none none 5) = true
       ↔ (none : Option MetaSlot) = none ∧ filterRejects none 5 = false)
    ∧ gen_unique_cmp_ids 4 none (some none) 5
        = Except.ok
            (some (some { map := [(5, 0)], current_id := 1 &&& (4 - 1) }),
             some 0) :=
  ⟨(gen_unique_panic_iff 4 none none 5).1,
   (gen_unique_panic_iff 4 none (some none) 5).2 (by rfl)⟩

/-! ## Gating of the call-argument runtime hook -/

/-- C6. `on_call` records nothing when the `CMPLOG_ENABLED` flag is 0,
and nothing when either of the callee's first two arguments resolves to a
null or unresolvable guest address (`unwrap_or(0)` maps unresolvable to
0); only when the flag is on and both arguments are non-null does it
forward both translated ranges together with the site's slot id to the
routine recorder. -/
theorem on_call_gating
    (g2h : Nat → Nat) (enabled : Nat) (arg0 arg1 : Option Nat) (k : Nat) :
    (on_call g2h enabled arg0 arg1 k = none
       ↔ enabled = 0 ∨ arg0.getD 0 = 0 ∨ arg1.getD 0 = 0)
    ∧ (enabled ≠ 0 → arg0.getD 0 ≠ 0 → arg1.getD 0 ≠ 0 →
        on_call g2h enabled arg0 arg1 k
          = some (k, g2h (arg0.getD 0), g2h (arg1.getD 0))) := by
  unfold on_call
  by_cases h0 : enabled = 0
  · simp [h0]
  · by_cases h1 : arg0.getD 0 = 0
    · simp [h0, h1]
    · by_cases h2 : arg1.getD 0 = 0
      · simp [h0, h1, h2]
      · simp [h0, h1, h2]

/-- Witness for C6: with the flag on and both arguments resolving to
non-null addresses 5 and 7, the hook forwards the slot id and both
translated ranges. -/
theorem on_call_gating_witness :
    on_call (fun a => a + 100) 1 (some 5) (some 7) 3 = some (3, 105, 107) :=
  (on_call_gating (fun a => a + 100) 1 (some 5) (some 7) 3).2
    (by decide) (by decide) (by decide)

/-! ## The block callback never returns an id -/

/-- C10. `gen_blocks_calls` returns None for every input — whether the
helper is registered, the filter accepts or rejects the block, and
whatever the decoder yields — so call-site slot ids reach the runtime
only through the context bound into installed hooks. -/
theorem gen_blocks_calls_ret_none
    (w : Nat) (armTarget : Bool) (dec : Decoder)
    (helper : Option QemuCmpLogRoutinesHelper) (fuel pc : Nat) :
    (gen_blocks_calls w armTarget dec helper fuel pc).ret = none := by
  cases helper with
  | none => rfl
  | some h =>
    by_cases hh : h.filter pc = true
    · simp [gen_blocks_calls, hh]
    · simp [gen_blocks_calls, hh]


/-! ## Scanner trace lemmas -/

theorem hookEvents_cons_decode (x : Nat) (l : List ScanEvent) :
    hookEvents (ScanEvent.decode x :: l) = hookEvents l := rfl

theorem hookEvents_append (l1 l2 : List ScanEvent) :
    hookEvents (l1 ++ l2) = hookEvents l1 ++ hookEvents l2 := by
  induction l1 with
  | nil => rfl
  | cons e rest ih => cases e <;> simp [hookEvents, ih]

theorem countModeSets_cons_decode (x : Nat) (l : List ScanEvent) :
    countModeSets (ScanEvent.decode x :: l) = countModeSets l := rfl

theorem countModeSets_append (l1 l2 : List ScanEvent) :
    countModeSets (l1 ++ l2) = countModeSets l1 + countModeSets l2 := by
  induction l1 with
  | nil => simp [countModeSets]
  | cons e rest ih =>
    cases e with
    | modeSet m =>
      simp [countModeSets, ih]
      omega
    | decode a => simp [countModeSets, ih]
    | hook a k => simp [countModeSets, ih]

theorem scanGroups_cons_call (w pc iaddr : Nat) (rest : List InsnGroup) :
    scanGroups w pc iaddr (InsnGroup.call :: rest)
      = (ScanEvent.hook iaddr (hash_me pc &&& (w - 1))
           :: (scanGroups w pc iaddr rest).1,
         (scanGroups w pc iaddr rest).2) := by
  rcases h : scanGroups w pc iaddr rest with ⟨evs, t⟩
  simp [scanGroups, h]

theorem scanGroups_hook {w pc iaddr : Nat} {gs : List InsnGroup} {a kk : Nat}
    (h : (a, kk) ∈ hookEvents (scanGroups w pc iaddr gs).1) :
    a = iaddr ∧ kk = hash_me pc &&& (w - 1) ∧ InsnGroup.call ∈ gs := by
  induction gs with
  | nil => simp [scanGroups, hookEvents] at h
  | cons g rest ih =>
    cases g with
    | call =>
      rw [scanGroups_cons_call] at h
      simp only [hookEvents] at h
      rcases List.mem_cons.1 h with h | h
      · rw [Prod.mk.injEq] at h
        exact ⟨h.1, h.2, List.mem_cons_self _ _⟩
      · obtain ⟨ha, hk, hc⟩ := ih h
        exact ⟨ha, hk, List.mem_cons_of_mem _ hc⟩
    | other n =>
      obtain ⟨ha, hk, hc⟩ := ih (by simpa [scanGroups] using h)
      exact ⟨ha, hk, List.mem_cons_of_mem _ hc⟩
    | ret => simp [scanGroups, hookEvents] at h
    | invalid => simp [scanGroups, hookEvents] at h
    | jump => simp [scanGroups, hookEvents] at h
    | iret => simp [scanGroups, hookEvents] at h
    | privilege => simp [scanGroups, hookEvents] at h

theorem scanGroups_no_modeSet (w pc iaddr : Nat) (gs : List InsnGroup) :
    countModeSets (scanGroups w pc iaddr gs).1 = 0 := by
  induction gs with
  | nil => rfl
  | cons g rest ih =>
    cases g with
    | call =>
      rw [scanGroups_cons_call]
      simpa [countModeSets] using ih
    | other n => simpa [scanGroups] using ih
    | ret => rfl
    | invalid => rfl
    | jump => rfl
    | iret => rfl
    | privilege => rfl

theorem scanLoop_zero (w : Nat) (dec : Decoder) (m : CsMode) (pc iaddr : Nat) :
    scanLoop w dec m pc 0 iaddr = [] := rfl

theorem scanLoop_succ_err {dec : Decoder} {m : CsMode} {iaddr : Nat}
    (w pc n : Nat) (hd : dec m iaddr = DecodeOutcome.err) :
    scanLoop w dec m pc (n + 1) iaddr = [] := by
  simp [scanLoop, hd]

theorem scanLoop_succ_empty {dec : Decoder} {m : CsMode} {iaddr : Nat}
    (w pc n : Nat) (hd : dec m iaddr = DecodeOutcome.empty) :
    scanLoop w dec m pc (n + 1) iaddr = [] := by
  simp [scanLoop, hd]

theorem scanLoop_succ_ok {dec : Decoder} {m : CsMode} {iaddr : Nat}
    {insn : DecodedInsn}
    (w pc n : Nat) (hd : dec m iaddr = DecodeOutcome.ok insn) :
    scanLoop w dec m pc (n + 1) iaddr
      = ScanEvent.decode iaddr :: (scanGroups w pc iaddr insn.groups).1
          ++ (if (scanGroups w pc iaddr insn.groups).2 then []
              else scanLoop w dec m pc n (iaddr + insn.len)) := by
  rcases hsg : scanGroups w pc iaddr insn.groups with ⟨evs, t⟩
  simp [scanLoop, hd, hsg]


theorem scanLoop_hook (w : Nat) (dec : Decoder) (m : CsMode) (pc fuel : Nat) :
    ∀ (iaddr a kk : Nat),
      (a, kk) ∈ hookEvents (scanLoop w dec m pc fuel iaddr) →
      kk = hash_me pc &&& (w - 1) ∧ decodesCallAt dec m a = true := by
  induction fuel with
  | zero =>
    intro iaddr a kk h
    simp [scanLoop_zero, hookEvents] at h
  | succ n ih =>
    intro iaddr a kk h
    cases hd : dec m iaddr with
    | err =>
      rw [scanLoop_succ_err w pc n hd] at h
      simp [hookEvents] at h
    | empty =>
      rw [scanLoop_succ_empty w pc n hd] at h
      simp [hookEvents] at h
    | ok insn =>
      rw [scanLoop_succ_ok w pc n hd, hookEvents_append,
        hookEvents_cons_decode, List.mem_append] at h
      rcases h with h | h
      · obtain ⟨rfl, hkk, hcall⟩ := scanGroups_hook h
        refine ⟨hkk, ?_⟩
        simp [decodesCallAt, hd, hcall]
      · by_cases ht : (scanGroups w pc iaddr insn.groups).2 = true
        · rw [ht] at h
          simp [hookEvents] at h
        · rw [Bool.not_eq_true] at ht
          rw [ht] at h
          simp only [Bool.false_eq_true, if_false] at h
          exact ih _ _ _ h

theorem scanLoop_no_modeSet (w : Nat) (dec : Decoder) (m : CsMode)
    (pc fuel : Nat) :
    ∀ iaddr, countModeSets (scanLoop w dec m pc fuel iaddr) = 0 := by
  induction fuel with
  | zero =>
    intro iaddr
    rfl
  | succ n ih =>
    intro iaddr
    cases hd : dec m iaddr with
    | err => rw [scanLoop_succ_err w pc n hd]; rfl
    | empty => rw [scanLoop_succ_empty w pc n hd]; rfl
    | ok insn =>
      rw [scanLoop_succ_ok w pc n hd, countModeSets_append,
        countModeSets_cons_decode, scanGroups_no_modeSet]
      by_cases ht : (scanGroups w pc iaddr insn.groups).2 = true
      · simp [ht, countModeSets]
      · rw [Bool.not_eq_true] at ht
        simp [ht, ih]

theorem scanLoop_call_ret (w : Nat) (dec : Decoder) (m : CsMode)
    (pc l1 l2 l3 n1 fuel : Nat)
    (h1 : dec m pc
        = DecodeOutcome.ok { len := l1, groups := [InsnGroup.other n1] })
    (h2 : dec m (pc + l1)
        = DecodeOutcome.ok { len := l2, groups := [InsnGroup.call] })
    (h3 : dec m (pc + l1 + l2)
        = DecodeOutcome.ok { len := l3, groups := [InsnGroup.ret] }) :
    scanLoop w dec m pc (fuel + 3) pc
      = [ScanEvent.decode pc, ScanEvent.decode (pc + l1),
         ScanEvent.hook (pc + l1) (hash_me pc &&& (w - 1)),
         ScanEvent.decode (pc + l1 + l2)] := by
  rw [show fuel + 3 = (fuel + 2) + 1 from rfl,
    scanLoop_succ_ok w pc (fuel + 2) h1]
  simp only [scanGroups, Bool.false_eq_true, if_false, List.nil_append]
  rw [show fuel + 2 = (fuel + 1) + 1 from rfl,
    scanLoop_succ_ok w pc (fuel + 1) h2]
  rw [scanGroups_cons_call]
  simp only [scanGroups, Bool.false_eq_true, if_false, List.nil_append]
  rw [scanLoop_succ_ok w pc fuel h3]
  simp [scanGroups]


/-! ## Decode-mode derivation (once per block) -/

/-- C9 counterexample: on an ARM-target scan of a block of two plain
instructions followed by a return, only the first decode is preceded by a
`set_mode`; the mode is not re-derived before the second decode, so
"re-derives the decode mode before each individual instruction decode" is
false on this input. -/
theorem mode_not_rederived_each_decode :
    (gen_blocks_calls CMPLOG_MAP_W true twoPlainInsnBlock
        (some { filter := fun _ => true, csMode := CsMode.otherMode })
        8 4096).events
      = [ScanEvent.modeSet CsMode.armMode, ScanEvent.decode 4096,
         ScanEvent.decode 4100, ScanEvent.decode 4104]
    ∧ modeRederivedBeforeEachDecode
        (gen_blocks_calls CMPLOG_MAP_W true twoPlainInsnBlock
          (some { filter := fun _ => true, csMode := CsMode.otherMode })
          8 4096).events
      = false := by
  constructor
  · rfl
  · rfl

/-- C9 (amended). On ARM targets the scanner derives the decode mode from
the low bit of the block start address once per block scan, before the
decode loop: when the filter allows the block the trace is a single
`set_mode` of `modeForAddr pc` followed by the decode loop's events, and
the whole trace contains exactly one `set_mode`. -/
theorem mode_derived_once_per_scan
    (w : Nat) (dec : Decoder) (f : Nat → Bool) (m0 : CsMode) (fuel pc : Nat)
    (hallow : f pc = true) :
    (gen_blocks_calls w true dec
        (some { filter := f, csMode := m0 }) fuel pc).events
      = ScanEvent.modeSet (modeForAddr pc)
          :: scanLoop w dec (modeForAddr pc) pc fuel pc
    ∧ countModeSets
        (gen_blocks_calls w true dec
          (some { filter := f, csMode := m0 }) fuel pc).events = 1 := by
  have he : (gen_blocks_calls w true dec
      (some { filter := f, csMode := m0 }) fuel pc).events
      = ScanEvent.modeSet (modeForAddr pc)
          :: scanLoop w dec (modeForAddr pc) pc fuel pc := by
    simp [gen_blocks_calls, hallow]
  refine ⟨he, ?_⟩
  rw [he]
  simp [countModeSets, scanLoop_no_modeSet]

/-- Witness for the amended C9: on the two-instruction block at 4096 the
trace opens with the single mode derivation for the even block start. -/
theorem mode_derived_once_per_scan_witness :
    (gen_blocks_calls CMPLOG_MAP_W true twoPlainInsnBlock
        (some { filter := fun _ => true, csMode := CsMode.otherMode })
        8 4096).events
      = ScanEvent.modeSet (modeForAddr 4096)
          :: scanLoop CMPLOG_MAP_W twoPlainInsnBlock (modeForAddr 4096)
               4096 8 4096
    ∧ countModeSets
        (gen_blocks_calls CMPLOG_MAP_W true twoPlainInsnBlock
          (some { filter := fun _ => true, csMode := CsMode.otherMode })
          8 4096).events = 1 :=
  mode_derived_once_per_scan CMPLOG_MAP_W twoPlainInsnBlock
    (fun _ => true) CsMode.otherMode 8 4096 rfl

/-! ## Hook ids installed by the call-site scanner -/

/-- C2 counterexample: scanning the block at 4096 whose second
instruction, at 4100, is the only call, the single installed hook sits at
4100 but is bound to the hashed id of the block start 4096, which differs
from the hashed id of the call instruction's own address 4100. -/
theorem call_hook_id_is_block_hash :
    hookEvents
      (gen_blocks_calls CMPLOG_MAP_W false callNotFirstBlock
        (some { filter := fun _ => true, csMode := CsMode.otherMode })
        8 4096).events
      = [(4100, hash_me 4096 &&& (CMPLOG_MAP_W - 1))]
    ∧ hash_me 4096 &&& (CMPLOG_MAP_W - 1)
        ≠ hash_me 4100 &&& (CMPLOG_MAP_W - 1) := by
  constructor
  · rfl
  · decide

/-- C2 (amended). Every hook the scanner installs is at the address of a
decoded call-group instruction and is bound to the hashed id of the
block's start address (`hash_me pc & (W - 1)`) — not of the call
instruction's own address; and scanning a straight-line block of one
non-call instruction, one call and a return installs exactly one hook, at
the call's address, bound to the hashed id of the block start, with no
event beyond the return. -/
theorem calls_hooked_with_block_hash
    (w : Nat) (armTarget : Bool) (dec decS : Decoder)
    (f0 fS : Nat → Bool) (mh mS : CsMode)
    (fuel fuelS pc pcS a kk l1 l2 l3 n1 : Nat)
    (hhook : (a, kk) ∈ hookEvents
        (gen_blocks_calls w armTarget dec
          (some { filter := f0, csMode := mh }) fuel pc).events)
    (hS : fS pcS = true)
    (h1 : decS mS pcS
        = DecodeOutcome.ok { len := l1, groups := [InsnGroup.other n1] })
    (h2 : decS mS (pcS + l1)
        = DecodeOutcome.ok { len := l2, groups := [InsnGroup.call] })
    (h3 : decS mS (pcS + l1 + l2)
        = DecodeOutcome.ok { len := l3, groups := [InsnGroup.ret] }) :
    (kk = hash_me pc &&& (w - 1)
       ∧ decodesCallAt dec (if armTarget then modeForAddr pc else mh) a
           = true)
    ∧ (gen_blocks_calls w false decS
         (some { filter := fS, csMode := mS }) (fuelS + 3) pcS).events
        = [ScanEvent.decode pcS, ScanEvent.decode (pcS + l1),
           ScanEvent.hook (pcS + l1) (hash_me pcS &&& (w - 1)),
           ScanEvent.decode (pcS + l1 + l2)] := by
  constructor
  · by_cases hf : f0 pc = true
    · have he : (gen_blocks_calls w armTarget dec
          (some { filter := f0, csMode := mh }) fuel pc).events
          = (if armTarget then [ScanEvent.modeSet (modeForAddr pc)] else [])
            ++ scanLoop w dec (if armTarget then modeForAddr pc else mh)
                 pc fuel pc := by
        cases armTarget with
        | true => simp [gen_blocks_calls, hf]
        | false => simp [gen_blocks_calls, hf]
      rw [he, hookEvents_append, List.mem_append] at hhook
      rcases hhook with h | h
      · cases armTarget with
        | true => simp [hookEvents] at h
        | false => simp [hookEvents] at h
      · exact scanLoop_hook w dec _ pc fuel pc a kk h
    · rw [Bool.not_eq_true] at hf
      simp [gen_blocks_calls, hf, hookEvents] at hhook
  · have he : (gen_blocks_calls w false decS
        (some { filter := fS, csMode := mS }) (fuelS + 3) pcS).events
        = scanLoop w decS mS pcS (fuelS + 3) pcS := by
      simp [gen_blocks_calls, hS]
    rw [he, scanLoop_call_ret w decS mS pcS l1 l2 l3 n1 fuelS h1 h2 h3]

/-- Witness for the amended C2 on the concrete block at 4096: the hook at
the call address 4100 carries the hashed id of the block start, the
decoder decodes a call at 4100, and the full scan trace is the expected
four events. -/
theorem calls_hooked_with_block_hash_witness :
    (hash_me 4096 &&& (CMPLOG_MAP_W - 1) = hash_me 4096 &&& (CMPLOG_MAP_W - 1)
       ∧ decodesCallAt callNotFirstBlock
           (if false then modeForAddr 4096 else CsMode.otherMode) 4100
           = true)
    ∧ (gen_blocks_calls CMPLOG_MAP_W false callNotFirstBlock
         (some { filter := fun _ => true, csMode := CsMode.otherMode })
         (5 + 3) 4096).events
        = [ScanEvent.decode 4096, ScanEvent.decode (4096 + 4),
           ScanEvent.hook (4096 + 4) (hash_me 4096 &&& (CMPLOG_MAP_W - 1)),
           ScanEvent.decode (4096 + 4 + 5)] :=
  calls_hooked_with_block_hash CMPLOG_MAP_W false callNotFirstBlock
    callNotFirstBlock (fun _ => true) (fun _ => true)
    CsMode.otherMode CsMode.otherMode
    8 5 4096 4096 4100 (hash_me 4096 &&& (CMPLOG_MAP_W - 1)) 4 5 1 0
    (by decide) rfl rfl rfl rfl

/-! ## Filter rejection has no effect -/

/-- C8. An address rejected by the helper's instrumentation filter yields
no slot id and leaves the fuzzing state untouched in both allocators, and
makes the block scanner a no-op: no scan event (hence no hook
installation and no capture-map write), unchanged helper state, and a
None return. -/
theorem filter_reject_no_effect
    (w : Nat) (f : Nat → Bool) (state : Option MetaSlot) (pc : Nat)
    (armTarget : Bool) (dec : Decoder) (m : CsMode) (fuel : Nat)
    (hrej : f pc = false) :
    gen_unique_cmp_ids w (some f) state pc = Except.ok (state, none)
    ∧ gen_hashed_cmp_ids w (some f) state pc = (state, none)
    ∧ gen_blocks_calls w armTarget dec
        (some { filter := f, csMode := m }) fuel pc
      = { events := [], helper := some { filter := f, csMode := m },
          ret := none } := by
  have hr : filterRejects (some f) pc = true := by
    simp [filterRejects, hrej]
  refine ⟨gen_unique_reject w state hr, ?_, ?_⟩
  · simp [gen_hashed_cmp_ids, hr]
  · simp [gen_blocks_calls, hrej]

/-- Witness for C8: a filter allowing only low addresses rejects 4096, so
both allocators return None with the state unchanged and the scanner does
nothing. -/
theorem filter_reject_no_effect_witness :
    gen_unique_cmp_ids CMPLOG_MAP_W (some fun aa => decide (aa < 100))
        (some none) 4096
      = Except.ok (some none, none)
    ∧ gen_hashed_cmp_ids CMPLOG_MAP_W (some fun aa => decide (aa < 100))
        (some none) 4096
      = (some none, none)
    ∧ gen_blocks_calls CMPLOG_MAP_W true callNotFirstBlock
        (some { filter := fun aa => decide (aa < 100),
                csMode := CsMode.otherMode }) 8 4096
      = { events := [],
          helper := some { filter := fun aa => decide (aa < 100),
                           csMode := CsMode.otherMode },
          ret := none } :=
  filter_reject_no_effect CMPLOG_MAP_W (fun aa => decide (aa < 100))
    (some none) 4096 true callNotFirstBlock CsMode.otherMode 8 (by rfl)

